import Mathlib

/-!
Verification of the streaming-chat core of the `sb_agent` repository.

The development shallowly embeds two source files:

* `frontend/src/services/streaming.ts` (`streamChat`): an SSE-style frame
  decoder.  The JS loop keeps a text `buffer`, appends each transport chunk,
  splits the buffer on the double-newline delimiter via
  `buffer.split('\n\n')`, keeps the last piece as the new buffer
  (`buffer = lines.pop() || ''`), and for every complete piece that starts
  with `data: ` parses the rest of the piece as a record and invokes
  `onEvent`; parse failures are dropped.  End-of-data invokes `onComplete`;
  the whole body is wrapped in a try/catch whose handler invokes `onError`.
  Strings are modelled as `List Char`; transport chunks are modelled at text
  level; `JSON.parse` + the cast to `StreamEvent` is modelled as an abstract
  partial parsing function `List Char → Option StreamEvent`.

* `frontend/src/hooks/useChat.ts` (`sendMessage`, `stopStreaming`,
  `clearMessages` and the three callbacks passed to `streamChat`): the chat
  transcript / highlight state machine.  React state setters become explicit
  record updates on a `ChatState`; the `setTimeout(..., 2000)` scheduled by
  the completion callback becomes a recorded pending delay plus an explicit
  timer-firing transition; the closure variable `fullContent` and the ref
  `abortRef.current` become fields of the state.  JS truthiness tests
  (`if (event.content)`, `if (event.line)`) are modelled exactly: an absent
  field, the empty string and the number `0` are falsy.
-/

/-- StreamEvent mirrors the `StreamEvent` record of `frontend/src/types/index.ts`
restricted to the fields the handler reads.  The `unknown` constructor stands
for records whose `type` discriminator matches none of the six cases of the
`switch` in `useChat.ts` (the switch then does nothing). -/
inductive StreamEvent where
  | token (content : Option String)
  | thinking (content : Option String)
  | highlight (line : Option Nat)
  | edit
  | done (summary : Option String)
  | error (message : Option String)
  | unknown
deriving DecidableEq, Repr

/-- Greedy left-to-right scanner for the frame delimiter `"\n\n"`.
The value `frames s` is `(init, last)` of the JavaScript expression
`s.split('\n\n')`: the first component lists the complete frames
(pieces before each non-overlapping occurrence of the delimiter, scanned
left to right), the second component is the residue after the last
delimiter.  This is exactly the decomposition the decoder loop performs
with `const lines = buffer.split('\n\n'); buffer = lines.pop() || ''`. -/
def frames : List Char → List (List Char) × List Char
  | [] => ([], [])
  | [c] => ([], [c])
  | c :: d :: rest =>
    if c = '\n' ∧ d = '\n' then
      let p := frames rest
      ([] :: p.1, p.2)
    else
      let p := frames (d :: rest)
      match p.1 with
      | [] => ([], c :: p.2)
      | f :: fs => ((c :: f) :: fs, p.2)

/-- A chunk of text contains no occurrence of the frame delimiter. -/
def delimFree (s : List Char) : Prop := (frames s).1 = []

instance (s : List Char) : Decidable (delimFree s) := by
  unfold delimFree; infer_instance

/-- Decoding of one complete frame, mirroring the body of the `for` loop in
`streamChat`: `if (line.startsWith('data: ')) { try { onEvent(JSON.parse(line.slice(6))) } catch ... }`.
A frame without the `data: ` tag is skipped, and a tagged frame whose payload
fails to parse is dropped; both contribute no event. -/
def decodeFrame (parse : List Char → Option StreamEvent) : List Char → Option StreamEvent
  | 'd' :: 'a' :: 't' :: 'a' :: ':' :: ' ' :: payload => parse payload
  | _ => none

/-- Terminal callback of one `streamChat` run: either `onComplete` or
`onError` was invoked (the try/catch guarantees exactly one of the two). -/
inductive Terminal where
  | completed
  | errored
deriving DecidableEq, Repr

/-- The `while (true)` read loop of `streamChat`.  Each chunk is appended to
the buffer, the buffer is split on the delimiter, complete frames are decoded
in order, and the residue becomes the new buffer.  When the chunk list is
exhausted the transport either reports end-of-data (`clean = true`: the code
calls `onComplete` and breaks, discarding the residual buffer) or the read
throws (`clean = false`: the surrounding catch calls `onError`). -/
def loopModel (parse : List Char → Option StreamEvent) :
    List Char → List (List Char) → Bool → List StreamEvent × Terminal
  | _, [], true => ([], Terminal.completed)
  | _, [], false => ([], Terminal.errored)
  | buffer, c :: rest, clean =>
    let p := frames (buffer ++ c)
    let evs := p.1.filterMap (decodeFrame parse)
    let r := loopModel parse p.2 rest clean
    (evs ++ r.1, r.2)

/-- Transport behaviour observed by one `streamChat` call: whether `fetch`
itself rejects, the `response.ok` flag, whether `response.body` yields a
reader, the text chunks delivered by successive `reader.read()` calls, and
whether the stream ends with a clean `done` (versus a read fault). -/
structure Transport where
  fetchFails : Bool
  ok : Bool
  hasBody : Bool
  chunks : List (List Char)
  cleanEnd : Bool
deriving DecidableEq, Repr

/-- Model of `streamChat`: the events delivered to `onEvent`, in order, and
which terminal callback ran.  The three `throw` sites before the loop
(`fetch` rejection, `!response.ok`, missing body) are caught by the
surrounding `catch`, which invokes `onError`; the function itself always
returns normally. -/
def streamChatModel (parse : List Char → Option StreamEvent) (t : Transport) :
    List StreamEvent × Terminal :=
  if t.fetchFails then ([], Terminal.errored)
  else if t.ok = false then ([], Terminal.errored)
  else if t.hasBody = false then ([], Terminal.errored)
  else loopModel parse [] t.chunks t.cleanEnd

/-- The fixed `data: ` frame tag checked by `line.startsWith('data: ')`. -/
def dataTag : List Char := ['d', 'a', 't', 'a', ':', ' ']

/-- The wire image of one frame carrying payload `p`: the tag, the payload,
then the double-newline delimiter. -/
def frameOf (p : List Char) : List Char := dataTag ++ p ++ ['\n', '\n']

/-- The wire image of a whole stream of payloads. -/
def wireOf (ps : List (List Char)) : List Char := (ps.map frameOf).flatten

/-- Well-formed framing of a payload: the payload contains no frame delimiter
and does not end in a newline, so that juxtaposing it with the delimiter is
unambiguous under the decoder's greedy scan.  (A payload ending in `'\n'`
would donate that newline to the delimiter match and corrupt the framing.)
Both conditions are captured at once by requiring `p ++ ['\n']` to be
delimiter-free. -/
def wfPayload (p : List Char) : Prop := delimFree (p ++ ['\n'])

instance (p : List Char) : Decidable (wfPayload p) := by
  unfold wfPayload; infer_instance

/-- Role of a `ChatMessage` (`frontend/src/types/index.ts`). -/
inductive Role where
  | user
  | assistant
deriving DecidableEq, Repr

/-- One `ChatMessage` of `useChat`.  The `Date.now()`-based string ids are
modelled as the underlying numbers; the `timestamp` field is never read by
the logic under verification and is omitted; an absent `isStreaming` field
(user messages) is modelled as `false`. -/
structure Msg where
  id : Nat
  role : Role
  content : String
  isStreaming : Bool
deriving DecidableEq, Repr

/-- The state owned by one `useChat` instance: the four `useState` values,
the `abortRef` ref, the `fullContent` closure accumulator of the active
session, a counter of `onDocumentUpdate` calls (the document-refresh
trigger), and the delay of the highlight-clear `setTimeout` scheduled by the
completion callback, if one is pending. -/
structure ChatState where
  messages : List Msg
  isStreaming : Bool
  highlightedLine : Option Nat
  streamingContent : String
  abortFlag : Bool
  fullContent : String
  docRefreshCount : Nat
  pendingClearDelay : Option Nat
deriving DecidableEq, Repr

/-- The `*${event.content}*` rendering used by the `thinking` case. -/
def emphasize (x : String) : String := "*" ++ x ++ "*"

/-- The `setMessages(prev => prev.map(m => m.id === assistantMessageId ? ... : m))`
update that replaces the content of the assistant message. -/
def setMsgContent (ms : List Msg) (amid : Nat) (c : String) : List Msg :=
  ms.map (fun m => if m.id = amid then { m with content := c } else m)

/-- The same update when it additionally sets `isStreaming: false`
(`done`, `error` and the `onError` callback). -/
def sealMsg (ms : List Msg) (amid : Nat) (c : String) : List Msg :=
  ms.map (fun m => if m.id = amid then { m with content := c, isStreaming := false } else m)

/-- The `onEvent` callback of `sendMessage`, as a state transition.  The
first line is the cancellation guard `if (abortRef.current) return;`.  The
`switch` cases translate one-to-one; the JS truthiness guards become
explicit tests against `none`, `""` and `0`. -/
def applyEvent (amid : Nat) (e : StreamEvent) (s : ChatState) : ChatState :=
  if s.abortFlag then s else
  match e with
  | .token c =>
    match c with
    | some str =>
      if str = "" then s
      else
        let full := s.fullContent ++ str
        { s with fullContent := full, streamingContent := full,
                 messages := setMsgContent s.messages amid full }
    | none => s
  | .thinking c =>
    match c with
    | some str =>
      if str = "" then s
      else { s with messages := setMsgContent s.messages amid (emphasize str) }
    | none => s
  | .highlight l =>
    match l with
    | some n => if n = 0 then s else { s with highlightedLine := some n }
    | none => s
  | .edit => { s with docRefreshCount := s.docRefreshCount + 1 }
  | .done summary =>
    let suffix := match summary with
      | some t => if t = "" then "" else "\n\n✓ " ++ t
      | none => ""
    { s with messages := sealMsg s.messages amid (s.fullContent ++ suffix) }
  | .error msg =>
    { s with messages := sealMsg s.messages amid ("❌ Error: " ++ msg.getD "undefined") }
  | .unknown => s

/-- Folding a delivered event sequence through the `onEvent` handler. -/
def applyEvents (amid : Nat) (es : List StreamEvent) (s : ChatState) : ChatState :=
  es.foldl (fun st e => applyEvent amid e st) s

/-- The user message added by `sendMessage` (`id = Date.now()`). -/
def userMsg (now : Nat) (prompt : String) : Msg :=
  { id := now, role := Role.user, content := prompt, isStreaming := false }

/-- The assistant placeholder added by `sendMessage` (`id = Date.now() + 1`). -/
def assistantPlaceholder (amid : Nat) : Msg :=
  { id := amid, role := Role.assistant, content := "", isStreaming := true }

/-- The synchronous prefix of `sendMessage`, up to and including the call
into `streamChat`.  Returns the updated state and whether a request was
actually opened.  The guard is `if (!documentId || isStreaming) return;`
(an absent or empty document id is falsy). -/
def sendMessage (now : Nat) (documentId : Option String) (prompt : String)
    (s : ChatState) : ChatState × Bool :=
  if documentId.getD "" = "" ∨ s.isStreaming then (s, false)
  else
    ({ messages := s.messages ++ [userMsg now prompt, assistantPlaceholder (now + 1)],
       isStreaming := true,
       highlightedLine := none,
       streamingContent := "",
       abortFlag := false,
       fullContent := "",
       docRefreshCount := s.docRefreshCount,
       pendingClearDelay := s.pendingClearDelay }, true)

/-- The delay of the highlight-clear timer scheduled on completion
(`setTimeout(() => setHighlightedLine(null), 2000)`). -/
def HIGHLIGHT_CLEAR_DELAY_MS : Nat := 2000

/-- The `onComplete` callback: stop streaming, clear the partial-content
mirror, and schedule the highlight clear after the fixed delay.  Note that
the highlight pointer itself is not touched here. -/
def onCompleteHandler (s : ChatState) : ChatState :=
  { s with isStreaming := false, streamingContent := "",
           pendingClearDelay := some HIGHLIGHT_CLEAR_DELAY_MS }

/-- Firing of the scheduled `setTimeout` callback: `setHighlightedLine(null)`. -/
def fireHighlightClear (s : ChatState) : ChatState :=
  { s with highlightedLine := none, pendingClearDelay := none }

/-- The `onError` callback: seal the assistant message with an error
rendering of `error.message`, stop streaming, clear the partial-content
mirror.  It does not touch `highlightedLine` and schedules no clear. -/
def onErrorHandler (amid : Nat) (message : String) (s : ChatState) : ChatState :=
  { s with messages := sealMsg s.messages amid ("❌ Error: " ++ message),
           isStreaming := false, streamingContent := "" }

/-- The `stopStreaming` callback: set the abort ref and stop streaming. -/
def stopStreaming (s : ChatState) : ChatState :=
  { s with abortFlag := true, isStreaming := false }

/-- The `clearMessages` callback. -/
def clearMessages (s : ChatState) : ChatState :=
  { s with messages := [], highlightedLine := none }

/-- The initial `useChat` state (`useState` / `useRef` initialisers). -/
def initialChatState : ChatState :=
  { messages := [], isStreaming := false, highlightedLine := none,
    streamingContent := "", abortFlag := false, fullContent := "",
    docRefreshCount := 0, pendingClearDelay := none }

/-- Content of the first message carrying the given id, if any. -/
def contentOf (s : ChatState) (amid : Nat) : Option String :=
  (s.messages.find? (fun m => m.id == amid)).map (fun m => m.content)

/-- Right-fold concatenation of a list of strings, recording the order in
which token contents are appended to the accumulator. -/
def concatAll (cs : List String) : String := cs.foldr (fun a b => a ++ b) ""

/-- Concrete record parser used to instantiate the decoder theorems: payload
`1` parses to a token event, payload `2` to a done event, everything else
fails to parse. -/
def parseDemo : List Char → Option StreamEvent :=
  fun s =>
    if s = ['1'] then some (StreamEvent.token (some "A"))
    else if s = ['2'] then some (StreamEvent.done none)
    else none

/-! ## Properties of the frame scanner -/

theorem frames_fst_nil : ∀ (s : List Char), (frames s).1 = [] → (frames s).2 = s := by
  intro s
  induction s using frames.induct with
  | case1 => simp [frames]
  | case2 c => simp [frames]
  | case3 c d rest h ih =>
    intro hc
    exfalso
    simp [frames, h] at hc
  | case4 c d rest h p hp ih =>
    intro _
    have hp' : (frames (d :: rest)).1 = [] := hp
    simp only [frames, if_neg h, hp']
    rw [ih hp']
  | case5 c d rest h p f fs hp ih =>
    intro hc
    exfalso
    have hp' : (frames (d :: rest)).1 = f :: fs := hp
    simp [frames, if_neg h, hp'] at hc

theorem frames_append : ∀ (a b : List Char),
    frames (a ++ b) =
      ((frames a).1 ++ (frames ((frames a).2 ++ b)).1, (frames ((frames a).2 ++ b)).2) := by
  intro a
  induction a using frames.induct with
  | case1 => intro b; simp [frames]
  | case2 c => intro b; simp [frames]
  | case3 c d rest h ih =>
    intro b
    obtain ⟨hc, hd⟩ := h
    subst hc; subst hd
    simp only [List.cons_append]
    simp only [frames, if_pos (And.intro rfl rfl)]
    rw [ih b]
    simp
  | case4 c d rest h p hp ih =>
    intro b
    have hp' : (frames (d :: rest)).1 = [] := hp
    have h2 : (frames (d :: rest)).2 = d :: rest := frames_fst_nil _ hp'
    simp only [List.cons_append]
    conv_rhs => rw [show frames (c :: d :: rest) = ([], c :: (frames (d :: rest)).2) by
      simp only [frames, if_neg h, hp']]
    rw [h2]
    simp
  | case5 c d rest h p f fs hp ih =>
    intro b
    have hp' : (frames (d :: rest)).1 = f :: fs := hp
    have key : frames (c :: d :: rest) = ((c :: f) :: fs, (frames (d :: rest)).2) := by
      simp only [frames, if_neg h, hp']
    have lhs : frames ((c :: d :: rest) ++ b)
        = match (frames ((d :: rest) ++ b)).1 with
          | [] => ([], c :: (frames ((d :: rest) ++ b)).2)
          | f :: fs => ((c :: f) :: fs, (frames ((d :: rest) ++ b)).2) := by
      simp only [List.cons_append, List.append_eq]
      simp only [frames, if_neg h]
    rw [lhs, ih b, key]
    simp only [hp']
    simp

theorem frames_cons_of_ne (c : Char) (hc : c ≠ '\n') (s : List Char) :
    frames (c :: s) =
      (match (frames s).1 with
       | [] => ([], c :: (frames s).2)
       | f :: fs => ((c :: f) :: fs, (frames s).2)) := by
  cases s with
  | nil => simp [frames]
  | cons d t =>
    have h : ¬(c = '\n' ∧ d = '\n') := fun h => hc h.1
    simp only [frames, if_neg h]


theorem frames_cons_cons (c d : Char) (t : List Char) (h : ¬(c = '\n' ∧ d = '\n')) :
    frames (c :: d :: t) =
      (match (frames (d :: t)).1 with
       | [] => ([], c :: (frames (d :: t)).2)
       | f :: fs => ((c :: f) :: fs, (frames (d :: t)).2)) := by
  simp only [frames, if_neg h]

theorem frames_snd_fst_nil : ∀ (s : List Char), (frames ((frames s).2)).1 = [] := by
  intro s
  induction s using frames.induct with
  | case1 => simp [frames]
  | case2 c => simp [frames]
  | case3 c d rest h ih =>
    simp only [frames, if_pos h]
    exact ih
  | case4 c d rest h p hp ih =>
    have hp' : (frames (d :: rest)).1 = [] := hp
    have h2 : (frames (d :: rest)).2 = d :: rest := frames_fst_nil _ hp'
    have key : frames (c :: d :: rest) = ([], c :: (frames (d :: rest)).2) := by
      simp only [frames, if_neg h, hp']
    rw [key]
    simp only [h2]
    have : (frames (c :: d :: rest)).1 = [] := by rw [key]
    exact this
  | case5 c d rest h p f fs hp ih =>
    have hp' : (frames (d :: rest)).1 = f :: fs := hp
    have key : frames (c :: d :: rest) = ((c :: f) :: fs, (frames (d :: rest)).2) := by
      simp only [frames, if_neg h, hp']
    rw [key]
    exact ih

theorem frame_closed : ∀ (q t : List Char), (frames (q ++ ['\n'])).1 = [] →
    frames (q ++ '\n' :: '\n' :: t) = (q :: (frames t).1, (frames t).2) := by
  intro q
  induction q using frames.induct with
  | case1 =>
    intro t _
    simp [frames]
  | case2 c =>
    intro t hw
    have hc : c ≠ '\n' := by
      intro hceq
      subst hceq
      simp [frames] at hw
    simp only [List.cons_append, List.nil_append]
    rw [frames_cons_of_ne c hc ('\n' :: '\n' :: t)]
    have : frames ('\n' :: '\n' :: t) = ([] :: (frames t).1, (frames t).2) := by
      simp [frames]
    rw [this]
  | case3 c d rest h ih =>
    intro t hw
    exfalso
    obtain ⟨hc, hd⟩ := h
    subst hc; subst hd
    simp [frames] at hw
  | case4 c d rest h p hp ih =>
    intro t hw
    -- from hw, the tail (d :: rest) ++ ['\n'] is delimiter-free
    have hw' : (frames ((d :: rest) ++ ['\n'])).1 = [] := by
      by_contra hne
      cases hq : (frames ((d :: rest) ++ ['\n'])).1 with
      | nil => exact hne hq
      | cons f fs =>
        have : frames (c :: ((d :: rest) ++ ['\n'])) = ((c :: f) :: fs, (frames ((d :: rest) ++ ['\n'])).2) := by
          rw [show c :: ((d :: rest) ++ ['\n']) = c :: d :: (rest ++ ['\n']) by simp]
          rw [frames_cons_cons c d (rest ++ ['\n']) h]
          rw [show (d :: rest) ++ ['\n'] = d :: (rest ++ ['\n']) by simp] at hq
          simp only [hq]
          simp
        rw [show (c :: d :: rest) ++ ['\n'] = c :: ((d :: rest) ++ ['\n']) by simp] at hw
        rw [this] at hw
        simp at hw
    have ihr := ih t hw'
    have hcd : ¬(c = '\n' ∧ d = '\n') := h
    have lhs : frames ((c :: d :: rest) ++ '\n' :: '\n' :: t)
        = match (frames ((d :: rest) ++ '\n' :: '\n' :: t)).1 with
          | [] => ([], c :: (frames ((d :: rest) ++ '\n' :: '\n' :: t)).2)
          | f :: fs => ((c :: f) :: fs, (frames ((d :: rest) ++ '\n' :: '\n' :: t)).2) := by
      simp only [List.cons_append]
      simp only [frames, if_neg hcd]
    rw [lhs, ihr]
  | case5 c d rest h p f fs hp ih =>
    intro t hw
    exfalso
    -- (frames (d :: rest)).1 = f :: fs means d :: rest contains a delimiter,
    -- so (c :: d :: rest) ++ ['\n'] does too, contradicting hw
    have hp' : (frames (d :: rest)).1 = f :: fs := hp
    have : (frames ((d :: rest) ++ ['\n'])).1 ≠ [] := by
      rw [frames_append (d :: rest) ['\n'], hp']
      simp
    cases hq : (frames ((d :: rest) ++ ['\n'])).1 with
    | nil => exact this hq
    | cons g gs =>
      have hcd : ¬(c = '\n' ∧ d = '\n') := h
      rw [show (c :: d :: rest) ++ ['\n'] = c :: ((d :: rest) ++ ['\n']) by simp] at hw
      have heq : frames (c :: ((d :: rest) ++ ['\n'])) = ((c :: g) :: gs, (frames ((d :: rest) ++ ['\n'])).2) := by
        rw [show c :: ((d :: rest) ++ ['\n']) = c :: d :: (rest ++ ['\n']) by simp]
        rw [frames_cons_cons c d (rest ++ ['\n']) hcd]
        rw [show (d :: rest) ++ ['\n'] = d :: (rest ++ ['\n']) by simp] at hq
        simp only [hq]
        simp
      rw [heq] at hw
      simp at hw

theorem delimFree_cons (c : Char) (hc : c ≠ '\n') (s : List Char) (h : delimFree s) :
    delimFree (c :: s) := by
  unfold delimFree at *
  rw [frames_cons_of_ne c hc s, h]

theorem wf_tag_lift (p : List Char) (h : wfPayload p) :
    delimFree ((dataTag ++ p) ++ ['\n']) := by
  unfold wfPayload at h
  have h1 : (dataTag ++ p) ++ ['\n'] = 'd' :: 'a' :: 't' :: 'a' :: ':' :: ' ' :: (p ++ ['\n']) := by
    simp [dataTag]
  rw [h1]
  refine delimFree_cons _ (by decide) _ ?_
  refine delimFree_cons _ (by decide) _ ?_
  refine delimFree_cons _ (by decide) _ ?_
  refine delimFree_cons _ (by decide) _ ?_
  refine delimFree_cons _ (by decide) _ ?_
  exact delimFree_cons _ (by decide) _ h

theorem frames_wire (ps : List (List Char)) (h : ∀ p ∈ ps, wfPayload p) :
    frames (wireOf ps) = (ps.map (fun p => dataTag ++ p), []) := by
  induction ps with
  | nil => simp [wireOf, frames]
  | cons p ps ih =>
    have hw : wireOf (p :: ps) = (dataTag ++ p) ++ '\n' :: '\n' :: wireOf ps := by
      simp [wireOf, frameOf, List.append_assoc]
    rw [hw]
    have hwf : (frames ((dataTag ++ p) ++ ['\n'])).1 = [] :=
      wf_tag_lift p (h p (List.mem_cons_self p ps))
    rw [frame_closed (dataTag ++ p) (wireOf ps) hwf]
    rw [ih (fun q hq => h q (List.mem_cons_of_mem p hq))]
    simp

theorem decode_tagged (parse : List Char → Option StreamEvent) (p : List Char) :
    decodeFrame parse (dataTag ++ p) = parse p := rfl

theorem loop_events (parse : List Char → Option StreamEvent) (chunks : List (List Char)) :
    ∀ (buf : List Char) (clean : Bool), delimFree buf →
      (loopModel parse buf chunks clean).1
        = (frames (buf ++ chunks.flatten)).1.filterMap (decodeFrame parse) := by
  induction chunks with
  | nil =>
    intro buf clean h
    unfold delimFree at h
    cases clean <;> simp [loopModel, h]
  | cons c rest ih =>
    intro buf clean h
    have hres : delimFree (frames (buf ++ c)).2 := frames_snd_fst_nil (buf ++ c)
    have lhs : (loopModel parse buf (c :: rest) clean).1
        = (frames (buf ++ c)).1.filterMap (decodeFrame parse)
          ++ (loopModel parse (frames (buf ++ c)).2 rest clean).1 := by
      simp [loopModel]
    rw [lhs, ih _ clean hres]
    have hass : buf ++ (c :: rest).flatten = (buf ++ c) ++ rest.flatten := by
      simp [List.append_assoc]
    rw [hass, frames_append (buf ++ c) rest.flatten]
    simp [List.filterMap_append]

theorem loop_terminal (parse : List Char → Option StreamEvent) (chunks : List (List Char)) :
    ∀ (buf : List Char) (clean : Bool),
      (loopModel parse buf chunks clean).2
        = (if clean then Terminal.completed else Terminal.errored) := by
  induction chunks with
  | nil => intro buf clean; cases clean <;> simp [loopModel]
  | cons c rest ih =>
    intro buf clean
    simp [loopModel, ih]

/-! ## Properties of the chat state machine -/

theorem abort_fixed (amid : Nat) (e : StreamEvent) (s : ChatState)
    (h : s.abortFlag = true) : applyEvent amid e s = s := by
  unfold applyEvent
  rw [h]
  simp

theorem find_map_id_pres (ms : List Msg) (f : Msg → Msg) (amid : Nat)
    (h : ∀ m, (f m).id = m.id) :
    (ms.map f).find? (fun m => m.id == amid)
      = (ms.find? (fun m => m.id == amid)).map f := by
  induction ms with
  | nil => simp
  | cons a l ih =>
    simp only [List.map_cons, List.find?_cons, h a]
    cases hpa : (a.id == amid) with
    | true => simp
    | false => simpa using ih

theorem find_setMsgContent (ms : List Msg) (amid : Nat) (c : String)
    (h : (ms.find? (fun m => m.id == amid)).isSome) :
    ((setMsgContent ms amid c).find? (fun m => m.id == amid)).map (fun m => m.content)
      = some c := by
  unfold setMsgContent
  rw [find_map_id_pres ms _ amid (by intro m; by_cases hm : m.id = amid <;> simp [hm])]
  obtain ⟨m0, hm0⟩ := Option.isSome_iff_exists.mp h
  have hid := List.find?_some hm0
  have hid' : m0.id = amid := by simpa using hid
  rw [hm0]
  simp [hid']

theorem find_sealMsg (ms : List Msg) (amid : Nat) (c : String)
    (h : (ms.find? (fun m => m.id == amid)).isSome) :
    ((sealMsg ms amid c).find? (fun m => m.id == amid)).map (fun m => m.content)
      = some c := by
  unfold sealMsg
  rw [find_map_id_pres ms _ amid (by intro m; by_cases hm : m.id = amid <;> simp [hm])]
  obtain ⟨m0, hm0⟩ := Option.isSome_iff_exists.mp h
  have hid := List.find?_some hm0
  have hid' : m0.id = amid := by simpa using hid
  rw [hm0]
  simp [hid']

theorem find_setMsgContent_isSome (ms : List Msg) (amid : Nat) (c : String)
    (h : (ms.find? (fun m => m.id == amid)).isSome) :
    ((setMsgContent ms amid c).find? (fun m => m.id == amid)).isSome := by
  unfold setMsgContent
  rw [find_map_id_pres ms _ amid (by intro m; by_cases hm : m.id = amid <;> simp [hm])]
  simpa using h

theorem contentOf_isSome (s : ChatState) (amid : Nat) (v : String)
    (h : contentOf s amid = some v) :
    (s.messages.find? (fun m => m.id == amid)).isSome := by
  unfold contentOf at h
  cases hf : s.messages.find? (fun m => m.id == amid) with
  | none => rw [hf] at h; simp at h
  | some m0 => simp

theorem token_step (amid : Nat) (s : ChatState) (c : String)
    (hab : s.abortFlag = false)
    (hinv : contentOf s amid = some s.fullContent) :
    (applyEvent amid (StreamEvent.token (some c)) s).abortFlag = false
    ∧ (applyEvent amid (StreamEvent.token (some c)) s).fullContent = s.fullContent ++ c
    ∧ contentOf (applyEvent amid (StreamEvent.token (some c)) s) amid
        = some (s.fullContent ++ c) := by
  by_cases hc : c = ""
  · subst hc
    have he : applyEvent amid (StreamEvent.token (some "")) s = s := by
      unfold applyEvent
      rw [hab]
      simp
    rw [he, String.append_empty]
    exact ⟨hab, rfl, hinv⟩
  · have he : applyEvent amid (StreamEvent.token (some c)) s
        = { s with fullContent := s.fullContent ++ c,
                   streamingContent := s.fullContent ++ c,
                   messages := setMsgContent s.messages amid (s.fullContent ++ c) } := by
      unfold applyEvent
      rw [hab]
      simp [hc]
    rw [he]
    refine ⟨hab, rfl, ?_⟩
    unfold contentOf
    exact find_setMsgContent s.messages amid (s.fullContent ++ c)
      (contentOf_isSome s amid s.fullContent hinv)

theorem applyEvents_cons (amid : Nat) (e : StreamEvent) (es : List StreamEvent)
    (s : ChatState) :
    applyEvents amid (e :: es) s = applyEvents amid es (applyEvent amid e s) := rfl

theorem concatAll_cons (c : String) (cs : List String) :
    concatAll (c :: cs) = c ++ concatAll cs := rfl

theorem tokens_fold (amid : Nat) (cs : List String) : ∀ (s : ChatState),
    s.abortFlag = false → contentOf s amid = some s.fullContent →
    contentOf (applyEvents amid (cs.map (fun c => StreamEvent.token (some c))) s) amid
        = some (s.fullContent ++ concatAll cs)
    ∧ (applyEvents amid (cs.map (fun c => StreamEvent.token (some c))) s).fullContent
        = s.fullContent ++ concatAll cs := by
  induction cs with
  | nil =>
    intro s hab hinv
    have : concatAll [] = "" := rfl
    rw [this, String.append_empty]
    exact ⟨hinv, rfl⟩
  | cons c cs ih =>
    intro s hab hinv
    obtain ⟨hab', hfc', hco'⟩ := token_step amid s c hab hinv
    have hrw : contentOf (applyEvent amid (StreamEvent.token (some c)) s) amid
        = some (applyEvent amid (StreamEvent.token (some c)) s).fullContent := by
      rw [hco', hfc']
    obtain ⟨h1, h2⟩ := ih (applyEvent amid (StreamEvent.token (some c)) s) hab' hrw
    rw [List.map_cons, applyEvents_cons]
    constructor
    · rw [h1, hfc', concatAll_cons, String.append_assoc]
    · rw [h2, hfc', concatAll_cons, String.append_assoc]

/-! ## Claim theorems -/

/-- C4 (Append monotonicity): starting from the state produced by
`sendMessage`, folding any sequence of `token` events through the `onEvent`
handler leaves the assistant message content equal to the concatenation of
the token contents in delivery order; in particular the sequence
`"A"`, `"B"`, `"C"` yields content `"ABC"`. -/
theorem append_monotonicity (now : Nat) (d p : String) (s : ChatState)
    (cs : List String)
    (hd : d ≠ "") (hs : s.isStreaming = false)
    (hfresh : ∀ m ∈ s.messages, m.id ≠ now + 1) :
    contentOf (applyEvents (now + 1) (cs.map (fun c => StreamEvent.token (some c)))
        (sendMessage now (some d) p s).1) (now + 1)
      = some (concatAll cs)
    ∧ contentOf (applyEvents 1 [StreamEvent.token (some "A"), StreamEvent.token (some "B"),
        StreamEvent.token (some "C")] (sendMessage 0 (some "doc") "hi" initialChatState).1) 1
      = some "ABC" := by
  have hguard : ¬((some d).getD "" = "" ∨ s.isStreaming = true) := by
    simp [hd, hs]
  have hsend : (sendMessage now (some d) p s).1
      = { messages := s.messages ++ [userMsg now p, assistantPlaceholder (now + 1)],
          isStreaming := true, highlightedLine := none, streamingContent := "",
          abortFlag := false, fullContent := "", docRefreshCount := s.docRefreshCount,
          pendingClearDelay := s.pendingClearDelay } := by
    unfold sendMessage
    rw [if_neg (by simpa using hguard)]
  have hnone : s.messages.find? (fun m => m.id == now + 1) = none := by
    rw [List.find?_eq_none]
    intro m hmem
    simpa using hfresh m hmem
  have hfind : ((s.messages ++ [userMsg now p, assistantPlaceholder (now + 1)]).find?
      (fun m => m.id == now + 1)) = some (assistantPlaceholder (now + 1)) := by
    rw [List.find?_append, hnone]
    simp [userMsg, assistantPlaceholder, Nat.ne_of_lt (Nat.lt_succ_self now)]
  have hinv : contentOf ((sendMessage now (some d) p s).1) (now + 1)
      = some ((sendMessage now (some d) p s).1).fullContent := by
    rw [hsend]
    unfold contentOf
    simp only [hfind]
    simp [assistantPlaceholder]
  have hab : ((sendMessage now (some d) p s).1).abortFlag = false := by
    rw [hsend]
  obtain ⟨h1, _⟩ := tokens_fold (now + 1) cs ((sendMessage now (some d) p s).1) hab hinv
  constructor
  · rw [h1]
    have : ((sendMessage now (some d) p s).1).fullContent = "" := by rw [hsend]
    rw [this, String.empty_append]
  · decide

/-- Witness for C4 at concrete inputs. -/
theorem append_monotonicity_witness :
    ("doc" : String) ≠ ""
    ∧ initialChatState.isStreaming = false
    ∧ (∀ m ∈ initialChatState.messages, m.id ≠ 1)
    ∧ contentOf (applyEvents 1 ([ "A", "B", "C"].map (fun c => StreamEvent.token (some c)))
        (sendMessage 0 (some "doc") "hi" initialChatState).1) 1
      = some (concatAll ["A", "B", "C"]) :=
  ⟨by decide, rfl, by simp [initialChatState],
   (append_monotonicity 0 "doc" "hi" initialChatState ["A", "B", "C"]
      (by decide) rfl (by simp [initialChatState])).1⟩

/-- C7 (Cancellation swallow): after `stopStreaming` sets the abort flag,
any sequence of subsequently delivered events leaves the state unchanged —
no transcript mutation, no highlight update and no document refresh — while
the decoder model itself is unaffected by the flag (it has no access to it)
and keeps draining the transport. -/
theorem cancellation_swallow (s : ChatState) (amid : Nat) (evs : List StreamEvent) :
    applyEvents amid evs (stopStreaming s) = stopStreaming s
    ∧ (stopStreaming s).abortFlag = true := by
  refine ⟨?_, rfl⟩
  induction evs with
  | nil => rfl
  | cons e es ih =>
    rw [applyEvents_cons, abort_fixed amid e (stopStreaming s) rfl]
    exact ih

/-- C8 (Single in-flight session): a `sendMessage` call made while a
session is streaming is a complete no-op — the state is unchanged and no
request is opened. -/
theorem single_inflight_noop (now : Nat) (d : Option String) (p : String)
    (s : ChatState) (h : s.isStreaming = true) :
    sendMessage now d p s = (s, false) := by
  unfold sendMessage
  rw [h]
  simp

/-- Witness for C8 at concrete inputs. -/
theorem single_inflight_noop_witness :
    ({ initialChatState with isStreaming := true } : ChatState).isStreaming = true
    ∧ sendMessage 5 (some "doc") "go" { initialChatState with isStreaming := true }
        = ({ initialChatState with isStreaming := true }, false) :=
  ⟨rfl, single_inflight_noop 5 (some "doc") "go" _ rfl⟩

/-- C2 counterexample (Terminal exclusivity fails): in a fresh session,
applying `done` and then a further `token` event mutates the assistant
message content again — the handler has no terminal-state guard, only the
cancellation guard.  Concretely, after `done{summary:"ok"}` the content is
the success rendering, and a subsequent `token{"B"}` overwrites it. -/
theorem terminal_mutation_cex :
    contentOf (applyEvent 1 (StreamEvent.token (some "B"))
        (applyEvent 1 (StreamEvent.done (some "ok"))
          (sendMessage 0 (some "doc") "hi" initialChatState).1)) 1
      ≠ contentOf (applyEvent 1 (StreamEvent.done (some "ok"))
          (sendMessage 0 (some "doc") "hi" initialChatState).1) 1 := by
  decide

/-- C2 amended (Terminal exclusivity): after `done` or `error` has been
applied, subsequently delivered `highlight`, `edit` and unrecognised events
leave the assistant message content unchanged, and once the cancellation
flag is set (`stopStreaming`) no event of any kind mutates the state; a
`token`, `thinking`, `done` or `error` event delivered after the terminal
event while the session is not cancelled, however, still mutates the
content (see the counterexample). -/
theorem terminal_exclusivity_amended (s : ChatState) (amid : Nat) (e : StreamEvent) :
    (∀ l, contentOf (applyEvent amid (StreamEvent.highlight l) s) amid = contentOf s amid)
    ∧ contentOf (applyEvent amid StreamEvent.edit s) amid = contentOf s amid
    ∧ contentOf (applyEvent amid StreamEvent.unknown s) amid = contentOf s amid
    ∧ applyEvent amid e (stopStreaming s) = stopStreaming s := by
  refine ⟨?_, ?_, ?_, abort_fixed amid e (stopStreaming s) rfl⟩
  · intro l
    cases hab : s.abortFlag
    · cases l with
      | none => simp [applyEvent, hab]
      | some n =>
        by_cases hn : n = 0
        · simp [applyEvent, hab, hn]
        · simp [applyEvent, hab, hn, contentOf]
    · simp [applyEvent, hab]
  · cases hab : s.abortFlag
    · simp [applyEvent, hab, contentOf]
    · simp [applyEvent, hab]
  · cases hab : s.abortFlag <;> simp [applyEvent, hab]

/-- C3 counterexample (error does not clear the highlight): in a fresh
session where `highlight{line:7}` has set the pointer, the `onError`
callback leaves the pointer at `7` — it is not cleared to none, neither
immediately nor at all (the callback never touches `highlightedLine`). -/
theorem highlight_error_cex :
    (onErrorHandler 1 "boom"
        (applyEvent 1 (StreamEvent.highlight (some 7))
          (sendMessage 0 (some "doc") "hi" initialChatState).1)).highlightedLine
      = some 7
    ∧ (some 7 : Option Nat) ≠ none := by
  constructor
  · decide
  · decide

/-- C3 amended (Highlight lifecycle): after `highlight{line:n}` sets the
pointer to `n`, the completion callback leaves the pointer at `n` and
schedules a clear with the configured 2000ms delay, so the pointer stays
`n` until that timer fires and only then becomes none; the error callback
leaves the pointer at `n` and schedules nothing — the pointer is not
cleared on failure. -/
theorem highlight_lifecycle_amended (s : ChatState) (amid n : Nat) (msg : String)
    (hab : s.abortFlag = false) (hn : n ≠ 0) :
    (applyEvent amid (StreamEvent.highlight (some n)) s).highlightedLine = some n
    ∧ (onCompleteHandler (applyEvent amid (StreamEvent.highlight (some n)) s)).highlightedLine
        = some n
    ∧ (onCompleteHandler (applyEvent amid (StreamEvent.highlight (some n)) s)).pendingClearDelay
        = some HIGHLIGHT_CLEAR_DELAY_MS
    ∧ (fireHighlightClear (onCompleteHandler
        (applyEvent amid (StreamEvent.highlight (some n)) s))).highlightedLine = none
    ∧ (onErrorHandler amid msg
        (applyEvent amid (StreamEvent.highlight (some n)) s)).highlightedLine = some n
    ∧ (onErrorHandler amid msg
        (applyEvent amid (StreamEvent.highlight (some n)) s)).pendingClearDelay
        = s.pendingClearDelay := by
  have he : applyEvent amid (StreamEvent.highlight (some n)) s
      = { s with highlightedLine := some n } := by
    unfold applyEvent
    rw [hab]
    simp [hn]
  rw [he]
  exact ⟨rfl, rfl, rfl, rfl, rfl, rfl⟩

/-- Witness for the amended C3 at concrete inputs. -/
theorem highlight_lifecycle_amended_witness :
    initialChatState.abortFlag = false
    ∧ (7 : Nat) ≠ 0
    ∧ (onCompleteHandler (applyEvent 1 (StreamEvent.highlight (some 7))
        initialChatState)).highlightedLine = some 7
    ∧ (onErrorHandler 1 "boom" (applyEvent 1 (StreamEvent.highlight (some 7))
        initialChatState)).highlightedLine = some 7 :=
  ⟨rfl, by decide,
   (highlight_lifecycle_amended initialChatState 1 7 "boom" rfl (by decide)).2.1,
   (highlight_lifecycle_amended initialChatState 1 7 "boom" rfl (by decide)).2.2.2.2.1⟩

/-- C5 (Thinking override): a `thinking{content:x}` event with non-empty
`x` sets the displayed assistant content to the emphasized rendering of `x`
without modifying the running accumulator, so a later `token` restores
append-based content; concretely `token{"A"}`, `thinking{"x"}`,
`token{"B"}` leaves the content equal to `"AB"`. -/
theorem thinking_override (s : ChatState) (amid : Nat) (x : String)
    (hab : s.abortFlag = false) (hx : x ≠ "")
    (hm : (s.messages.find? (fun m => m.id == amid)).isSome) :
    (applyEvent amid (StreamEvent.thinking (some x)) s).fullContent = s.fullContent
    ∧ contentOf (applyEvent amid (StreamEvent.thinking (some x)) s) amid
        = some (emphasize x)
    ∧ contentOf (applyEvents 1 [StreamEvent.token (some "A"), StreamEvent.thinking (some "x"),
        StreamEvent.token (some "B")] (sendMessage 0 (some "doc") "hi" initialChatState).1) 1
      = some "AB" := by
  have he : applyEvent amid (StreamEvent.thinking (some x)) s
      = { s with messages := setMsgContent s.messages amid (emphasize x) } := by
    unfold applyEvent
    rw [hab]
    simp [hx]
  refine ⟨by rw [he], ?_, by decide⟩
  rw [he]
  unfold contentOf
  exact find_setMsgContent s.messages amid (emphasize x) hm

/-- Witness for C5 at concrete inputs. -/
theorem thinking_override_witness :
    ((sendMessage 0 (some "doc") "hi" initialChatState).1).abortFlag = false
    ∧ ("x" : String) ≠ ""
    ∧ (((sendMessage 0 (some "doc") "hi" initialChatState).1).messages.find?
        (fun m => m.id == 1)).isSome
    ∧ contentOf (applyEvent 1 (StreamEvent.thinking (some "x"))
        (sendMessage 0 (some "doc") "hi" initialChatState).1) 1 = some (emphasize "x") :=
  ⟨rfl, by decide, by decide,
   (thinking_override (sendMessage 0 (some "doc") "hi" initialChatState).1 1 "x"
      rfl (by decide) (by decide)).2.1⟩

theorem filterMap_all_some (parse : List Char → Option StreamEvent) :
    ∀ (ps : List (List Char)) (evs : List StreamEvent),
      ps.map parse = evs.map some → ps.filterMap parse = evs := by
  intro ps
  induction ps with
  | nil =>
    intro evs h
    cases evs with
    | nil => rfl
    | cons e es => simp at h
  | cons p ps ih =>
    intro evs h
    cases evs with
    | nil => simp at h
    | cons e es =>
      simp only [List.map_cons, List.cons.injEq] at h
      rw [List.filterMap_cons, h.1]
      rw [ih es h.2]

/-- C1 (Frame splitting): for every stream of N well-formed `data: `-framed
payloads, and for every partition of the wire into transport chunks
(boundaries may fall inside the delimiter or inside a payload), the decoder
loop delivers exactly the N parsed records, in wire order, independently of
the chunking. -/
theorem frame_splitting (parse : List Char → Option StreamEvent)
    (ps : List (List Char)) (evs : List StreamEvent) (chunks : List (List Char))
    (hwf : ∀ p ∈ ps, wfPayload p)
    (hparse : ps.map parse = evs.map some)
    (hchunks : chunks.flatten = wireOf ps) :
    (loopModel parse [] chunks true).1 = evs ∧ evs.length = ps.length := by
  have h1 : delimFree ([] : List Char) := by decide
  have h2 := loop_events parse chunks [] true h1
  rw [List.nil_append, hchunks, frames_wire ps hwf] at h2
  simp only [List.filterMap_map] at h2
  have h3 : (fun p => decodeFrame parse (dataTag ++ p)) = parse := by
    funext q
    exact decode_tagged parse q
  constructor
  · rw [h2]
    have h4 : List.filterMap (decodeFrame parse ∘ fun p => dataTag ++ p) ps
        = List.filterMap parse ps := by
      apply List.filterMap_congr
      intro q _
      exact decode_tagged parse q
    rw [h4]
    exact filterMap_all_some parse ps evs hparse
  · have hlen := congrArg List.length hparse
    simpa using hlen.symm

/-- Witness for C1: two frames delivered in two chunks whose boundary falls
inside the delimiter of the first frame. -/
theorem frame_splitting_witness :
    (∀ p ∈ [['1'], ['2']], wfPayload p)
    ∧ [['1'], ['2']].map parseDemo
        = [StreamEvent.token (some "A"), StreamEvent.done none].map some
    ∧ [['d', 'a', 't', 'a', ':', ' ', '1', '\n'],
       ['\n', 'd', 'a', 't', 'a', ':', ' ', '2', '\n', '\n']].flatten = wireOf [['1'], ['2']]
    ∧ (loopModel parseDemo []
        [['d', 'a', 't', 'a', ':', ' ', '1', '\n'],
         ['\n', 'd', 'a', 't', 'a', ':', ' ', '2', '\n', '\n']] true).1
        = [StreamEvent.token (some "A"), StreamEvent.done none] :=
  ⟨by decide, by decide, by decide,
   (frame_splitting parseDemo [['1'], ['2']]
      [StreamEvent.token (some "A"), StreamEvent.done none]
      [['d', 'a', 't', 'a', ':', ' ', '1', '\n'],
       ['\n', 'd', 'a', 't', 'a', ':', ' ', '2', '\n', '\n']]
      (by decide) (by decide) (by decide)).1⟩

/-- C6 (Malformed tolerance): a well-framed payload that fails to parse is
dropped — it contributes no event and does not abort the run — and every
well-formed frame after it in the same stream is still decoded and
delivered; the run still completes normally. -/
theorem malformed_tolerance (parse : List Char → Option StreamEvent)
    (ps qs : List (List Char)) (bad : List Char)
    (hps : ∀ p ∈ ps, wfPayload p) (hqs : ∀ p ∈ qs, wfPayload p)
    (hbad : wfPayload bad) (hfail : parse bad = none) :
    loopModel parse [] [wireOf (ps ++ bad :: qs)] true
      = (ps.filterMap parse ++ qs.filterMap parse, Terminal.completed) := by
  have hall : ∀ p ∈ ps ++ bad :: qs, wfPayload p := by
    intro p hp
    rcases List.mem_append.mp hp with h | h
    · exact hps p h
    · rcases List.mem_cons.mp h with h | h
      · rw [h]; exact hbad
      · exact hqs p h
  have h1 : delimFree ([] : List Char) := by decide
  have h2 := loop_events parse [wireOf (ps ++ bad :: qs)] [] true h1
  have hflat : ([wireOf (ps ++ bad :: qs)] : List (List Char)).flatten
      = wireOf (ps ++ bad :: qs) := by simp
  rw [List.nil_append, hflat, frames_wire _ hall] at h2
  simp only [List.filterMap_map] at h2
  have h4 : List.filterMap (decodeFrame parse ∘ fun p => dataTag ++ p) (ps ++ bad :: qs)
      = List.filterMap parse (ps ++ bad :: qs) := by
    apply List.filterMap_congr
    intro q _
    exact decode_tagged parse q
  rw [h4, List.filterMap_append, List.filterMap_cons, hfail] at h2
  have hterm := loop_terminal parse [wireOf (ps ++ bad :: qs)] [] true
  have hpair : loopModel parse [] [wireOf (ps ++ bad :: qs)] true
      = ((loopModel parse [] [wireOf (ps ++ bad :: qs)] true).1,
         (loopModel parse [] [wireOf (ps ++ bad :: qs)] true).2) := rfl
  rw [hpair, h2, hterm]
  simp

/-- Witness for C6: a malformed frame between two valid ones is dropped and
the later frame is still delivered. -/
theorem malformed_tolerance_witness :
    (∀ p ∈ [['1']], wfPayload p)
    ∧ (∀ p ∈ [['2']], wfPayload p)
    ∧ wfPayload ['x']
    ∧ parseDemo ['x'] = none
    ∧ loopModel parseDemo [] [wireOf ([['1']] ++ ['x'] :: [['2']])] true
        = ([StreamEvent.token (some "A"), StreamEvent.done none], Terminal.completed) :=
  ⟨by decide, by decide, by decide, by decide, by
    have h := malformed_tolerance parseDemo [['1']] [['2']] ['x']
      (by decide) (by decide) (by decide) (by decide)
    rw [h]
    decide⟩

/-- C9 (End-of-transport behaviour): when the transport reports end-of-data,
`streamChat` invokes `onComplete` (not `onError`), and a trailing partial
frame left in the buffer is discarded — only the payloads of the complete
frames are delivered. -/
theorem end_of_transport (parse : List Char → Option StreamEvent)
    (ps : List (List Char)) (leftover : List Char)
    (hps : ∀ p ∈ ps, wfPayload p) (hleft : delimFree leftover) :
    streamChatModel parse
        { fetchFails := false, ok := true, hasBody := true,
          chunks := [wireOf ps ++ leftover], cleanEnd := true }
      = (ps.filterMap parse, Terminal.completed) := by
  have hred : streamChatModel parse
      { fetchFails := false, ok := true, hasBody := true,
        chunks := [wireOf ps ++ leftover], cleanEnd := true }
      = loopModel parse [] [wireOf ps ++ leftover] true := by
    unfold streamChatModel
    simp
  rw [hred]
  have h1 : delimFree ([] : List Char) := by decide
  have h2 := loop_events parse [wireOf ps ++ leftover] [] true h1
  have hflat : ([wireOf ps ++ leftover] : List (List Char)).flatten
      = wireOf ps ++ leftover := by simp
  rw [List.nil_append, hflat, frames_append (wireOf ps) leftover,
      frames_wire ps hps] at h2
  simp only [List.nil_append] at h2
  unfold delimFree at hleft
  rw [hleft] at h2
  simp only [List.append_nil, List.filterMap_append, List.filterMap_map] at h2
  have h4 : List.filterMap (decodeFrame parse ∘ fun p => dataTag ++ p) ps
      = List.filterMap parse ps := by
    apply List.filterMap_congr
    intro q _
    exact decode_tagged parse q
  rw [h4] at h2
  have hterm := loop_terminal parse [wireOf ps ++ leftover] [] true
  have hpair : loopModel parse [] [wireOf ps ++ leftover] true
      = ((loopModel parse [] [wireOf ps ++ leftover] true).1,
         (loopModel parse [] [wireOf ps ++ leftover] true).2) := rfl
  rw [hpair, h2, hterm]
  simp

/-- Witness for C9: one complete frame followed by a non-empty partial
frame; the partial payload would parse, yet no event is emitted for it, and
the run completes. -/
theorem end_of_transport_witness :
    (∀ p ∈ [['1']], wfPayload p)
    ∧ delimFree ['d', 'a', 't', 'a', ':', ' ', '2']
    ∧ streamChatModel parseDemo
        { fetchFails := false, ok := true, hasBody := true,
          chunks := [wireOf [['1']] ++ ['d', 'a', 't', 'a', ':', ' ', '2']],
          cleanEnd := true }
      = ([StreamEvent.token (some "A")], Terminal.completed) :=
  ⟨by decide, by decide, by
    have h := end_of_transport parseDemo [['1']] ['d', 'a', 't', 'a', ':', ' ', '2']
      (by decide) (by decide)
    rw [h]
    decide⟩

/-- C10 (The promise always resolves): `streamChat` always ends by invoking
exactly one of its terminal callbacks; every failure path — fetch
rejection, non-success response status, missing response body, mid-stream
read fault — is caught and surfaced via `onError`, and all other runs end
in `onComplete`; no exception escapes to the caller (the model is a total
function into the two terminal outcomes). -/
theorem stream_always_resolves (parse : List Char → Option StreamEvent) (t : Transport) :
    ((streamChatModel parse t).2 = Terminal.completed
      ∨ (streamChatModel parse t).2 = Terminal.errored)
    ∧ ((streamChatModel parse t).2 = Terminal.completed
        ↔ (t.fetchFails = false ∧ t.ok = true ∧ t.hasBody = true ∧ t.cleanEnd = true)) := by
  constructor
  · cases h : (streamChatModel parse t).2
    · left; rfl
    · right; rfl
  · unfold streamChatModel
    cases hf : t.fetchFails <;> cases ho : t.ok <;> cases hb : t.hasBody
      <;> cases hc : t.cleanEnd <;>
      simp [loop_terminal, hf, ho, hb, hc]

/-- Witness for C10: a run whose fetch rejects ends in the error callback. -/
theorem stream_always_resolves_witness :
    (streamChatModel parseDemo
        { fetchFails := true, ok := true, hasBody := true, chunks := [], cleanEnd := true }).2
      = Terminal.errored := by
  have h := stream_always_resolves parseDemo
    { fetchFails := true, ok := true, hasBody := true, chunks := [], cleanEnd := true }
  rcases h.1 with hc | he
  · exfalso
    have := h.2.mp hc
    simp at this
  · exact he
